import Mathlib

/-!
Verification development for the candle-aggregation / breakout-trading
repository (candle_builder.py, historical_breakout_backtest.py,
historical_breakout_trader.py, live_candle_trader.py, kite_websocket.py).

Prices and capital are modelled as rationals, Python `int()` truncation as
`pytrunc`, fallible code (a Python exception such as ZeroDivisionError) as
`Option`.  Each Python function that a claim depends on is translated into a
Lean definition of the same name; theorems about the claims follow the
definitions.
-/

/-- A completed or open OHLCV candle (dict built in candle_builder.initialize_candle /
live_candle_trader.initialize_candle; the same shape is returned by
kite.historical_data).  `timestamp` is the minute bucket, `first_tick_time` and
`last_tick_time` are raw tick times (seconds). -/
structure Candle where
  symbol : String := ""
  timestamp : Nat := 0
  open_ : ℚ := 0
  high : ℚ := 0
  low : ℚ := 0
  close : ℚ := 0
  volume : ℤ := 0
  tick_count : Nat := 0
  first_tick_time : Nat := 0
  last_tick_time : Nat := 0
  deriving DecidableEq

/-- Python `int(q)` on a float/rational: truncation toward zero. -/
def pytrunc (q : ℚ) : ℤ :=
  if 0 ≤ q then ⌊q⌋ else -⌊-q⌋

/-- `total_risk = INITIAL_CAPITAL * TOTAL_RISK_PERCENTAGE;
per_stock_risk = total_risk / len(SYMBOLS)` (same lines in
historical_breakout_backtest.initialize_candle_data,
live_candle_trader.calculate_quantities_from_breakout and
kite_websocket.initialize_candle_data). -/
def per_stock_risk_calc (capital risk_fraction : ℚ) (symbol_count : Nat) : ℚ :=
  capital * risk_fraction / (symbol_count : ℚ)

/-- `breakout_range = abs(candle['high'] - candle['low'])`. -/
def breakout_range (c : Candle) : ℚ :=
  |c.high - c.low|

/-- historical_breakout_backtest.initialize_candle_data (and
historical_breakout_trader.initialize_candle_data), per-symbol quantity:
`quantity = max(1, int(per_stock_risk / breakout_range))`.
A zero range raises ZeroDivisionError in Python, modelled as `none`. -/
def quantity_backtest (per_stock_risk range : ℚ) : Option ℤ :=
  if range = 0 then none
  else some (max 1 (pytrunc (per_stock_risk / range)))

/-- live_candle_trader.calculate_quantities_from_breakout, per-symbol quantity:
`quantity = int(per_stock_risk / breakout_range) if breakout_range > 0 else 1`.
Total: the division is guarded. -/
def quantity_live (per_stock_risk range : ℚ) : ℤ :=
  if range > 0 then pytrunc (per_stock_risk / range) else 1

/-- kite_websocket.initialize_candle_data, per-symbol quantity:
`quantity = int(per_stock_risk / breakout_range)` — unguarded; a zero range
raises ZeroDivisionError in Python, modelled as `none`. -/
def quantity_kws (per_stock_risk range : ℚ) : Option ℤ :=
  if range = 0 then none
  else some (pytrunc (per_stock_risk / range))

/-- Order side / transaction type. -/
inductive Side where
  | buy
  | sell
  deriving DecidableEq

/-- A recorded position (`position_data` dict: direction, quantity, price, plus
`stop_loss_price` from `sl_info`). -/
structure Position where
  direction : Side
  quantity : Nat
  price : ℚ
  stop_loss_price : ℚ
  deriving DecidableEq

/-- An order intent emitted by the decision path: a market entry order or a
stop-loss order (`trigger = some p`). -/
structure OrderIntent where
  side : Side
  quantity : Nat
  trigger : Option ℚ
  deriving DecidableEq

/-- Per-symbol decision state: the capital ledger `AVAILABLE_CAPITAL` /
`self.available_capital` and the symbol's entry in `POSITIONS_TAKEN` /
`self.positions_taken`. -/
structure DecState where
  capital : ℚ
  position : Option Position
  deriving DecidableEq

/-- historical_breakout_backtest.HistoricalBreakoutTrader.check_breakout_for_symbol
(identical decision code in historical_breakout_trader.py): entry on the
completed 1-minute candle's **close** strictly breaking the reference range;
capital check first; long checked before short; stop-loss at the opposite
reference extreme.  Returns the new state and the emitted order intents
(entry market order then stop-loss order). -/
def check_breakout_for_symbol (ref : Candle) (quantity : Nat) (c : Candle)
    (s : DecState) : DecState × List OrderIntent :=
  if s.position.isSome then (s, [])
  else
    let current_price := c.close
    let deployed_capital := (quantity : ℚ) * current_price
    if deployed_capital > s.capital then (s, [])
    else if current_price > ref.high then
      ({ capital := s.capital - deployed_capital,
         position := some { direction := Side.buy, quantity := quantity,
                            price := current_price, stop_loss_price := ref.low } },
       [{ side := Side.buy, quantity := quantity, trigger := none },
        { side := Side.sell, quantity := quantity, trigger := some ref.low }])
    else if current_price < ref.low then
      ({ capital := s.capital - deployed_capital,
         position := some { direction := Side.sell, quantity := quantity,
                            price := current_price, stop_loss_price := ref.high } },
       [{ side := Side.sell, quantity := quantity, trigger := none },
        { side := Side.buy, quantity := quantity, trigger := some ref.high }])
    else (s, [])

/-- live_candle_trader.LiveCandleTrader.check_breakout_entry: entry on the
completed 1-minute candle's **high** (long) or **low** (short) strictly
breaking the reference range; the capital check and the recorded entry price
use the candle's close; stop-loss at the opposite reference extreme. -/
def check_breakout_entry (ref : Candle) (quantity : Nat) (c : Candle)
    (s : DecState) : DecState × List OrderIntent :=
  if s.position.isSome then (s, [])
  else
    let candle_close := c.close
    let candle_high := c.high
    let candle_low := c.low
    let deployed_capital := (quantity : ℚ) * candle_close
    if deployed_capital > s.capital then (s, [])
    else if candle_high > ref.high then
      ({ capital := s.capital - deployed_capital,
         position := some { direction := Side.buy, quantity := quantity,
                            price := candle_close, stop_loss_price := ref.low } },
       [{ side := Side.buy, quantity := quantity, trigger := none },
        { side := Side.sell, quantity := quantity, trigger := some ref.low }])
    else if candle_low < ref.low then
      ({ capital := s.capital - deployed_capital,
         position := some { direction := Side.sell, quantity := quantity,
                            price := candle_close, stop_loss_price := ref.high } },
       [{ side := Side.sell, quantity := quantity, trigger := none },
        { side := Side.buy, quantity := quantity, trigger := some ref.high }])
    else (s, [])

/-- Replay a sequence of completed candles through the backtest decision path
for one symbol, accumulating emitted order intents (the backtest main loop
feeding check_breakout_for_symbol one completed bar per simulated minute). -/
def runBacktest (ref : Candle) (quantity : Nat) :
    DecState → List Candle → DecState × List OrderIntent
  | s, [] => (s, [])
  | s, c :: cs =>
    let r := check_breakout_for_symbol ref quantity c s
    let rest := runBacktest ref quantity r.1 cs
    (rest.1, r.2 ++ rest.2)

/-- Replay a sequence of completed candles through the live decision path for
one symbol (complete_1min_candle feeding check_breakout_entry each completed
bar). -/
def runLive (ref : Candle) (quantity : Nat) :
    DecState → List Candle → DecState × List OrderIntent
  | s, [] => (s, [])
  | s, c :: cs =>
    let r := check_breakout_entry ref quantity c s
    let rest := runLive ref quantity r.1 cs
    (rest.1, r.2 ++ rest.2)

/-- A broker-reported position record (an element of `kite.positions()['net']`). -/
structure BrokerPosition where
  tradingsymbol : String
  product : String
  quantity : ℤ
  deriving DecidableEq

/-- A locally recorded position entry of `self.positions_taken`
(live_candle_trader), keyed by symbol. -/
structure LocalPosition where
  direction : Side
  quantity : ℤ
  stop_loss_order_id : Option Nat
  deriving DecidableEq

/-- A closing market order issued during liquidation. -/
structure CloseOrder where
  tradingsymbol : String
  transaction_type : Side
  quantity : ℤ
  deriving DecidableEq

/-- First loop of historical_breakout_backtest.closeAllPositions: filter the
broker-reported net positions to non-zero MIS positions of tracked symbols. -/
def filterOpenPositions (symbols : List String) :
    List BrokerPosition → List BrokerPosition
  | [] => []
  | p :: ps =>
    if p.product = "MIS" ∧ p.quantity ≠ 0 ∧ p.tradingsymbol ∈ symbols then
      p :: filterOpenPositions symbols ps
    else
      filterOpenPositions symbols ps

/-- Second loop of historical_breakout_backtest.closeAllPositions: for each
filtered position place a market order opposite to the reported quantity,
with the absolute quantity. -/
def closeOrdersFor : List BrokerPosition → List CloseOrder
  | [] => []
  | p :: ps =>
    { tradingsymbol := p.tradingsymbol,
      transaction_type := if p.quantity > 0 then Side.sell else Side.buy,
      quantity := |p.quantity| } :: closeOrdersFor ps

/-- historical_breakout_backtest.closeAllPositions (identical code in
historical_breakout_trader.py): queries broker positions, closes every
non-zero MIS position of a tracked symbol, then clears the local map — but
only clears when at least one broker position was closed (the early return on
an empty filter happens before `POSITIONS_TAKEN.clear()`).  The local map
`positions_taken` has no influence on the orders issued.  Returns the issued
closing orders and the resulting local map. -/
def closeAllPositions (symbols : List String) (net : List BrokerPosition)
    (positions_taken : List (String × LocalPosition)) :
    List CloseOrder × List (String × LocalPosition) :=
  let open_positions := filterOpenPositions symbols net
  if open_positions = [] then ([], positions_taken)
  else (closeOrdersFor open_positions, [])

/-- live_candle_trader.LiveCandleTrader.close_all_positions: early-returns when
the local `positions_taken` map is empty; otherwise closes each **locally**
recorded position with a market order in the opposite direction.  The broker's
reported positions are never queried. -/
def close_all_positions (positions_taken : List (String × LocalPosition)) :
    List CloseOrder × List (String × LocalPosition) :=
  if positions_taken = [] then ([], positions_taken)
  else
    (positions_taken.map (fun sp =>
      { tradingsymbol := sp.1,
        transaction_type := if sp.2.direction = Side.buy then Side.sell else Side.buy,
        quantity := sp.2.quantity }),
     [])

/-- A broker-reported order record (an element of `kite.orders()`). -/
structure BrokerOrder where
  order_id : Nat
  tradingsymbol : String
  product : String
  status : String
  order_type : String
  deriving DecidableEq

/-- historical_breakout_backtest.cancelAllOrders (identical code in
historical_breakout_trader.py): cancel every order whose status is OPEN,
TRIGGER_PENDING or MODIFY_PENDING, whose product is MIS, and whose symbol is
tracked or whose order type is a stop order (SL / SLM).  Returns the cancelled
order ids. -/
def cancelAllOrders (symbols : List String) : List BrokerOrder → List Nat
  | [] => []
  | o :: os =>
    if (o.status = "OPEN" ∨ o.status = "TRIGGER_PENDING" ∨ o.status = "MODIFY_PENDING")
        ∧ o.product = "MIS"
        ∧ (o.tradingsymbol ∈ symbols ∨ o.order_type = "SL" ∨ o.order_type = "SLM") then
      o.order_id :: cancelAllOrders symbols os
    else
      cancelAllOrders symbols os

/-- live_candle_trader.LiveCandleTrader.cancel_all_orders: cancel every order
whose status is OPEN or TRIGGER_PENDING (no product or symbol filter). -/
def cancel_all_orders : List BrokerOrder → List Nat
  | [] => []
  | o :: os =>
    if o.status = "OPEN" ∨ o.status = "TRIGGER_PENDING" then
      o.order_id :: cancel_all_orders os
    else
      cancel_all_orders os

/-- The consolidated opening-range reference. -/
structure ReferenceRange where
  open_ : ℚ
  high : ℚ
  low : ℚ
  close : ℚ
  volume : ℤ
  deriving DecidableEq

/-- Modelled from the spec: the Reference Range Builder's K-bucket
consolidation (spec section 4.2) is not present under src/ — the sources only
contain the K = 1 variants (a broker-supplied 5-minute bar in
historical_breakout_backtest.initialize_candle_data) and direct tick
aggregation (live_candle_trader.complete_5min_candle).  Per the spec's words,
for the recorded reference buckets in bucket-start order: open = first
bucket's open, close = last bucket's close, high = max of highs, low = min of
lows, volume = sum of volumes; an empty recording yields no reference. -/
def consolidateReference : List Candle → Option ReferenceRange
  | [] => none
  | c :: cs =>
    some { open_ := c.open_,
           close := (cs.getLastD c).close,
           high := cs.foldl (fun a x => max a x.high) c.high,
           low := cs.foldl (fun a x => min a x.low) c.low,
           volume := cs.foldl (fun a x => a + x.volume) c.volume }

/-- An incoming tick as consumed by candle_builder.on_ticks (after token →
symbol resolution): `last_price` and the `volume_traded` field (0 when
absent). -/
structure Tick where
  symbol : String
  last_price : ℚ
  volume_traded : ℤ
  deriving DecidableEq

/-- `timestamp.replace(second=0, microsecond=0)` on a time measured in
seconds: the minute bucket. -/
def bucketOf (t : Nat) : Nat := t / 60

/-- CandleBuilder state: the open-candle dict `self.current_candles`
(insertion-ordered association list, as a Python dict), the append-only
completed list `self.completed_candles` (flattened across symbols, in
completion order; each candle carries its symbol), the minute tracker
`self.current_minute`, and the tracked-symbol set `self.token_symbols`. -/
structure CBState where
  current_candles : List (String × Candle)
  completed_candles : List Candle
  current_minute : Option Nat
  tracked : List String
  deriving DecidableEq

/-- Dict lookup `self.current_candles[symbol]` / `symbol in self.current_candles`. -/
def assocFind (k : String) : List (String × Candle) → Option Candle
  | [] => none
  | (k', v) :: rest => if k' = k then some v else assocFind k rest

/-- Dict assignment `d[k] = v`: replace in place if present, else append
(Python dict preserves insertion order). -/
def assocSet (k : String) (v : Candle) : List (String × Candle) → List (String × Candle)
  | [] => [(k, v)]
  | (k', v') :: rest =>
    if k' = k then (k, v) :: rest else (k', v') :: assocSet k v rest

/-- Dict deletion `del d[k]`. -/
def assocErase (k : String) : List (String × Candle) → List (String × Candle)
  | [] => []
  | (k', v') :: rest =>
    if k' = k then rest else (k', v') :: assocErase k rest

/-- candle_builder.CandleBuilder.initialize_candle: open a fresh candle for
the tick's minute, OHLC all at the tick price, volume 0, tick_count 0 (the
opening tick is not counted). -/
def initialize_candle (symbol : String) (price : ℚ) (timestamp : Nat)
    (s : CBState) : CBState :=
  let candle : Candle :=
    { symbol := symbol, timestamp := bucketOf timestamp,
      open_ := price, high := price, low := price, close := price,
      volume := 0, tick_count := 0,
      first_tick_time := timestamp, last_tick_time := timestamp }
  { s with current_candles := assocSet symbol candle s.current_candles }

/-- candle_builder.CandleBuilder.update_candle: strict-compare high/low
updates, close := latest price, volume and tick_count accumulate.  (A missing
key raises KeyError in Python; on_ticks only calls this when the key is
present, and the model leaves the state unchanged in that dead branch.) -/
def update_candle (symbol : String) (price : ℚ) (volume : ℤ) (timestamp : Nat)
    (s : CBState) : CBState :=
  match assocFind symbol s.current_candles with
  | none => s
  | some candle =>
    let candle := { candle with
      high := if price > candle.high then price else candle.high,
      low := if price < candle.low then price else candle.low,
      close := price,
      volume := candle.volume + volume,
      tick_count := candle.tick_count + 1,
      last_tick_time := timestamp }
    { s with current_candles := assocSet symbol candle s.current_candles }

/-- candle_builder.CandleBuilder.complete_candle: move the symbol's open
candle (if any) to the completed list and delete it from the open dict. -/
def complete_candle (symbol : String) (s : CBState) : CBState :=
  match assocFind symbol s.current_candles with
  | none => s
  | some candle =>
    { s with
      completed_candles := s.completed_candles ++ [candle],
      current_candles := assocErase symbol s.current_candles }

/-- The loop `for symbol in symbols_to_complete: self.complete_candle(symbol)`. -/
def completeSymbols : List String → CBState → CBState
  | [], s => s
  | sym :: rest, s => completeSymbols rest (complete_candle sym s)

/-- candle_builder.CandleBuilder.check_minute_change: on the first call record
the minute; afterwards, when the minute strictly advances, complete every
open candle (snapshot of the dict's keys, in order) and record the new
minute. -/
def check_minute_change (current_time : Nat) (s : CBState) : CBState :=
  let current_minute := bucketOf current_time
  match s.current_minute with
  | none => { s with current_minute := some current_minute }
  | some m =>
    if current_minute > m then
      let s' := completeSymbols (s.current_candles.map Prod.fst) s
      { s' with current_minute := some current_minute }
    else s

/-- The per-tick body of candle_builder.on_ticks: unknown tokens are skipped;
a symbol without an open candle gets a fresh candle from this tick, otherwise
the open candle is updated. -/
def processTick (current_time : Nat) (s : CBState) (tick : Tick) : CBState :=
  if tick.symbol ∈ s.tracked then
    if assocFind tick.symbol s.current_candles = none then
      initialize_candle tick.symbol tick.last_price current_time s
    else
      update_candle tick.symbol tick.last_price tick.volume_traded current_time s
  else s

/-- candle_builder.CandleBuilder.on_ticks: take the batch arrival time, run
check_minute_change, then ingest each tick of the batch in order. -/
def on_ticks (current_time : Nat) (ticks : List Tick) (s : CBState) : CBState :=
  (ticks.foldl (processTick current_time) (check_minute_change current_time s))

/-- A stream of tick batches, each with its arrival time, processed in order. -/
def processBatches : List (Nat × List Tick) → CBState → CBState
  | [], s => s
  | (t, ticks) :: rest, s => processBatches rest (on_ticks t ticks s)

/-- Number of ticks of a batch belonging to a symbol. -/
def countTicksFor (symbol : String) : List Tick → Nat
  | [] => 0
  | tk :: rest =>
    (if tk.symbol = symbol then 1 else 0) + countTicksFor symbol rest

/-- Total number of ticks for a symbol across a batch stream. -/
def countTicksForBatches (symbol : String) : List (Nat × List Tick) → Nat
  | [] => 0
  | b :: rest => countTicksFor symbol b.2 + countTicksForBatches symbol rest

/-- A fresh builder state for a tracked-symbol universe, minute tracker
already at bucket m (after the first check_minute_change of the session). -/
def initCBState (tracked : List String) (m : Nat) : CBState :=
  { current_candles := [], completed_candles := [], current_minute := some m,
    tracked := tracked }

/-- Invariant of the candle builder while the clock stays inside one minute
bucket m: the minute tracker sits at m, nothing is completed yet, the
open-candle keys are distinct, every open candle belongs to a tracked symbol
and carries its key as symbol and m as bucket, and for every tracked symbol
the open candle's tick_count is one less than the number `f sym` of ticks of
that symbol ingested so far in this bucket (no candle ⇔ no ticks yet). -/
def CBInv (tracked : List String) (m : Nat) (f : String → Nat) (s : CBState) : Prop :=
  s.tracked = tracked ∧
  s.current_minute = some m ∧
  s.completed_candles = [] ∧
  (s.current_candles.map Prod.fst).Nodup ∧
  (∀ e ∈ s.current_candles, e.1 ∈ tracked ∧ e.2.symbol = e.1 ∧ e.2.timestamp = m) ∧
  (∀ sym ∈ tracked,
    (assocFind sym s.current_candles = none → f sym = 0) ∧
    (∀ c, assocFind sym s.current_candles = some c → c.tick_count + 1 = f sym))

/-! ## Decision-path lemmas -/

lemma check_breakout_for_symbol_of_some (ref : Candle) (qty : Nat) (c : Candle)
    (s : DecState) (h : s.position.isSome) :
    check_breakout_for_symbol ref qty c s = (s, []) := by
  simp [check_breakout_for_symbol, h]

lemma check_breakout_entry_of_some (ref : Candle) (qty : Nat) (c : Candle)
    (s : DecState) (h : s.position.isSome) :
    check_breakout_entry ref qty c s = (s, []) := by
  simp [check_breakout_entry, h]

lemma live_step_eq_backtest_step (ref : Candle) (qty : Nat) (c : Candle) (s : DecState)
    (h1 : c.high > ref.high ↔ c.close > ref.high)
    (h2 : c.low < ref.low ↔ c.close < ref.low) :
    check_breakout_entry ref qty c s = check_breakout_for_symbol ref qty c s := by
  simp only [check_breakout_entry, check_breakout_for_symbol, h1, h2]

lemma runLive_eq_runBacktest (ref : Candle) (qty : Nat) :
    ∀ (bars : List Candle) (s : DecState),
    (∀ c ∈ bars, (c.high > ref.high ↔ c.close > ref.high) ∧
                 (c.low < ref.low ↔ c.close < ref.low)) →
    runLive ref qty s bars = runBacktest ref qty s bars := by
  intro bars
  induction bars with
  | nil => intro s _; rfl
  | cons c cs ih =>
    intro s h
    have hc := h c (List.mem_cons_self c cs)
    simp only [runLive, runBacktest]
    rw [live_step_eq_backtest_step ref qty c s hc.1 hc.2,
      ih _ (fun x hx => h x (List.mem_cons_of_mem c hx))]

/-- C1: the claim that the backtest and live decision paths produce identical
results on every candle sequence is false; they agree only when, for each
evaluated candle, the close breaches the reference range exactly when the
high/low does (and when the truncated risk quotient is at least 1 so the two
quantity formulas coincide).  This theorem proves the amended claim: the
quantity formulas agree when `1 ≤ pytrunc (per_stock_risk / range)`, and the
two replay paths produce identical states and order intents whenever every
candle satisfies the breach-agreement conditions. -/
theorem C1_backtest_live_agree :
    (∀ per range : ℚ, 0 < range → 1 ≤ pytrunc (per / range) →
      quantity_backtest per range = some (quantity_live per range))
    ∧ (∀ (ref : Candle) (qty : Nat) (s : DecState) (bars : List Candle),
        (∀ c ∈ bars, (c.high > ref.high ↔ c.close > ref.high) ∧
                     (c.low < ref.low ↔ c.close < ref.low)) →
        runLive ref qty s bars = runBacktest ref qty s bars) := by
  constructor
  · intro per range hr hq
    have hne : range ≠ 0 := ne_of_gt hr
    simp [quantity_backtest, quantity_live, hne, hr, max_eq_right hq]
  · intro ref qty s bars h
    exact runLive_eq_runBacktest ref qty bars s h

/-- Witness for C1: concrete inputs discharging every hypothesis of
`C1_backtest_live_agree`. -/
theorem C1_backtest_live_agree_witness :
    quantity_backtest 3600 10 = some (quantity_live 3600 10)
    ∧ runLive ({ high := 100, low := 90 } : Candle) 360
        { capital := 360000, position := none }
        [{ open_ := 95, high := 105, low := 95, close := 104 }] =
      runBacktest ({ high := 100, low := 90 } : Candle) 360
        { capital := 360000, position := none }
        [{ open_ := 95, high := 105, low := 95, close := 104 }] :=
  ⟨C1_backtest_live_agree.1 3600 10 (by norm_num) (by norm_num [pytrunc]),
   C1_backtest_live_agree.2 _ 360 _ _ (by
      intro c hc
      simp only [List.mem_singleton] at hc
      subst hc
      constructor <;> constructor <;> intro h <;> norm_num <;> norm_num at h)⟩

/-- Counterexample to C1 as stated: on the same single-bar sequence the
backtest path takes no position while the live path enters long (the bar's
high breaches the reference high but its close does not); moreover the two
sizing formulas disagree when the truncated quotient is 0. -/
theorem C1_counterexample :
    (runBacktest ({ high := 100, low := 90 } : Candle) 360
        { capital := 360000, position := none }
        [{ open_ := 95, high := 101, low := 94, close := 99 }]).1.position = none
    ∧ (runLive ({ high := 100, low := 90 } : Candle) 360
        { capital := 360000, position := none }
        [{ open_ := 95, high := 101, low := 94, close := 99 }]).1.position =
      some { direction := Side.buy, quantity := 360, price := 99, stop_loss_price := 90 }
    ∧ quantity_backtest 7200 10000 = some 1
    ∧ quantity_live 7200 10000 = 0 := by
  refine ⟨?_, ?_, ?_, ?_⟩
  · norm_num [runBacktest, check_breakout_for_symbol]
  · norm_num [runLive, check_breakout_entry]
  · norm_num [quantity_backtest, pytrunc]
  · norm_num [quantity_live, pytrunc]

/-- C2: corrected form.  With no recorded position and sufficient capital, in
both paths the upward check runs first so at most one direction fires.  The
backtest path enters long exactly when the candle's close strictly exceeds
the reference high and short exactly when the close is strictly below the
reference low; the live path instead tests the candle's high (long) and low
(short).  Neither strict breach means no entry and an unchanged state. -/
theorem C2_breakout_condition (ref : Candle) (qty : Nat) (c : Candle) (s : DecState)
    (hpos : s.position = none)
    (hcap : (qty : ℚ) * c.close ≤ s.capital) :
    ((check_breakout_for_symbol ref qty c s).1.position =
        some { direction := Side.buy, quantity := qty, price := c.close,
               stop_loss_price := ref.low } ↔ c.close > ref.high)
    ∧ ((check_breakout_for_symbol ref qty c s).1.position =
        some { direction := Side.sell, quantity := qty, price := c.close,
               stop_loss_price := ref.high } ↔ ¬ c.close > ref.high ∧ c.close < ref.low)
    ∧ (¬ c.close > ref.high → ¬ c.close < ref.low →
        check_breakout_for_symbol ref qty c s = (s, []))
    ∧ ((check_breakout_entry ref qty c s).1.position =
        some { direction := Side.buy, quantity := qty, price := c.close,
               stop_loss_price := ref.low } ↔ c.high > ref.high)
    ∧ ((check_breakout_entry ref qty c s).1.position =
        some { direction := Side.sell, quantity := qty, price := c.close,
               stop_loss_price := ref.high } ↔ ¬ c.high > ref.high ∧ c.low < ref.low)
    ∧ (¬ c.high > ref.high → ¬ c.low < ref.low →
        check_breakout_entry ref qty c s = (s, [])) := by
  have hns : ¬ (qty : ℚ) * c.close > s.capital := not_lt.mpr hcap
  refine ⟨?_, ?_, ?_, ?_, ?_, ?_⟩ <;>
    simp only [check_breakout_for_symbol, check_breakout_entry, hpos,
      Option.isSome_none, Bool.false_eq_true, if_false, hns] <;>
    split_ifs <;>
    simp_all [Position.mk.injEq]

/-- Witness for C2: the characterization applied at concrete inputs. -/
theorem C2_breakout_condition_witness :
    ((check_breakout_for_symbol ({ high := 100, low := 90 } : Candle) 3
        ({ high := 105, low := 95, close := 104 } : Candle)
        { capital := 360000, position := none }).1.position =
      some { direction := Side.buy, quantity := 3, price := 104, stop_loss_price := 90 } ↔
      (104 : ℚ) > 100) :=
  (C2_breakout_condition ({ high := 100, low := 90 } : Candle) 3
    ({ high := 105, low := 95, close := 104 } : Candle)
    { capital := 360000, position := none } rfl (by norm_num)).1

/-- Counterexample to C2 as stated: a completed candle whose close satisfies
neither strict inequality (99 is neither above the reference high 100 nor
below the reference low 90) still triggers a long entry in the live decision
path, because the candle's high 101 breaches the reference high. -/
theorem C2_counterexample :
    ¬ ((99 : ℚ) > 100) ∧ ¬ ((99 : ℚ) < 90)
    ∧ (check_breakout_entry ({ high := 100, low := 90 } : Candle) 360
        ({ open_ := 95, high := 101, low := 94, close := 99 } : Candle)
        { capital := 360000, position := none }).1.position =
      some { direction := Side.buy, quantity := 360, price := 99, stop_loss_price := 90 } := by
  refine ⟨by norm_num, by norm_num, ?_⟩
  norm_num [check_breakout_entry]

/-- C5: once a position is recorded for a symbol, replaying any further
completed candles through either decision path leaves the whole state
(position and capital) unchanged and emits no order intents, until the
position is externally cleared. -/
theorem C5_single_entry (ref : Candle) (qty : Nat) (s : DecState) (p : Position)
    (h : s.position = some p) (bars : List Candle) :
    runBacktest ref qty s bars = (s, []) ∧ runLive ref qty s bars = (s, []) := by
  have hs : s.position.isSome := by simp [h]
  constructor
  · induction bars with
    | nil => rfl
    | cons c cs ih =>
      simp only [runBacktest, check_breakout_for_symbol_of_some ref qty c s hs, ih,
        List.nil_append]
  · induction bars with
    | nil => rfl
    | cons c cs ih =>
      simp only [runLive, check_breakout_entry_of_some ref qty c s hs, ih,
        List.nil_append]

/-- Witness for C5: a state that already holds a position is left unchanged by
a further bar in both paths. -/
theorem C5_single_entry_witness :
    runBacktest ({ high := 100, low := 90 } : Candle) 5
      ({ capital := 1000,
         position := some { direction := Side.buy, quantity := 5,
                            price := 10, stop_loss_price := 9 } } : DecState)
      [{ high := 200, low := 50, close := 150 }] =
      (({ capital := 1000,
          position := some { direction := Side.buy, quantity := 5,
                             price := 10, stop_loss_price := 9 } } : DecState), [])
    ∧ runLive ({ high := 100, low := 90 } : Candle) 5
      ({ capital := 1000,
         position := some { direction := Side.buy, quantity := 5,
                            price := 10, stop_loss_price := 9 } } : DecState)
      [{ high := 200, low := 50, close := 150 }] =
      (({ capital := 1000,
          position := some { direction := Side.buy, quantity := 5,
                             price := 10, stop_loss_price := 9 } } : DecState), []) :=
  C5_single_entry _ 5 _ _ rfl _

/-- C6: an entry signal evaluated with quantity × close exceeding the
available capital is rejected atomically in both paths: the state (capital
and position) is unchanged, no order intent is emitted, and the symbol
remains eligible — a later candle evaluated with sufficient capital and a
strict breach still enters. -/
theorem C6_capital_reject (ref : Candle) (qty : Nat) (c : Candle) (s : DecState)
    (h0 : s.position = none) (h1 : (qty : ℚ) * c.close > s.capital) :
    check_breakout_for_symbol ref qty c s = (s, [])
    ∧ check_breakout_entry ref qty c s = (s, [])
    ∧ (∀ c' : Candle, (qty : ℚ) * c'.close ≤ s.capital → c'.close > ref.high →
        (check_breakout_for_symbol ref qty c'
          (check_breakout_for_symbol ref qty c s).1).1.position =
          some { direction := Side.buy, quantity := qty, price := c'.close,
                 stop_loss_price := ref.low })
    ∧ (∀ c' : Candle, (qty : ℚ) * c'.close ≤ s.capital → c'.high > ref.high →
        (check_breakout_entry ref qty c'
          (check_breakout_entry ref qty c s).1).1.position =
          some { direction := Side.buy, quantity := qty, price := c'.close,
                 stop_loss_price := ref.low }) := by
  have hbt : check_breakout_for_symbol ref qty c s = (s, []) := by
    simp [check_breakout_for_symbol, h0, h1]
  have hlv : check_breakout_entry ref qty c s = (s, []) := by
    simp [check_breakout_entry, h0, h1]
  refine ⟨hbt, hlv, ?_, ?_⟩
  · intro c' hcap hbreach
    rw [hbt]
    simp [check_breakout_for_symbol, h0, not_lt.mpr hcap, hbreach]
  · intro c' hcap hbreach
    rw [hlv]
    simp [check_breakout_entry, h0, not_lt.mpr hcap, hbreach]

/-- Witness for C6: a signal needing 2000 against capital 1000 is rejected
with the state intact. -/
theorem C6_capital_reject_witness :
    check_breakout_for_symbol ({ high := 100, low := 90 } : Candle) 1
      ({ close := 2000 } : Candle) { capital := 1000, position := none } =
      ({ capital := 1000, position := none }, []) :=
  (C6_capital_reject ({ high := 100, low := 90 } : Candle) 1
    ({ close := 2000 } : Candle) { capital := 1000, position := none }
    rfl (by norm_num)).1

/-- C3: corrected form.  Both paths compute
`per_symbol_risk = capital × risk_fraction / symbol_count` once; the backtest
sizing sets `quantity = max(1, ⌊per_symbol_risk / range⌋)`, which is at least
1 whenever the range is non-zero, and on the worked example (capital 360000,
risk fraction 0.02, 2 symbols, ranges 10 and 20) both the backtest and the
live sizing produce 360 and 180.  The live sizing, however, omits the
`max(1, ·)` clamp (see the counterexample). -/
theorem C3_quantity_formula :
    (∀ per range : ℚ, range ≠ 0 →
      quantity_backtest per range = some (max 1 (pytrunc (per / range))))
    ∧ (∀ (per range : ℚ) (z : ℤ), quantity_backtest per range = some z → 1 ≤ z)
    ∧ per_stock_risk_calc 360000 (2/100) 2 = 3600
    ∧ quantity_backtest 3600 10 = some 360
    ∧ quantity_backtest 3600 20 = some 180
    ∧ quantity_live 3600 10 = 360
    ∧ quantity_live 3600 20 = 180 := by
  refine ⟨?_, ?_, ?_, ?_, ?_, ?_, ?_⟩
  · intro per range h
    simp [quantity_backtest, h]
  · intro per range z h
    simp only [quantity_backtest] at h
    split_ifs at h
    simp only [Option.some.injEq] at h
    omega
  · norm_num [per_stock_risk_calc]
  · norm_num [quantity_backtest, pytrunc]
  · norm_num [quantity_backtest, pytrunc]
  · norm_num [quantity_live, pytrunc]
  · norm_num [quantity_live, pytrunc]

/-- Witness for C3: the backtest formula and clamp at a concrete non-zero
range. -/
theorem C3_quantity_formula_witness :
    quantity_backtest 3600 10 = some (max 1 (pytrunc (3600 / 10)))
    ∧ (1 : ℤ) ≤ 360 :=
  ⟨C3_quantity_formula.1 3600 10 (by norm_num),
   C3_quantity_formula.2.1 3600 10 360 (by norm_num [quantity_backtest, pytrunc])⟩

/-- Counterexample to C3 as stated: with one symbol, capital 360000 and risk
fraction 0.02 (per-symbol risk 7200) and a reference range of 10000, the live
sizing computes quantity 0 — not max(1, ⌊7200/10000⌋) = 1 — so not every
computed quantity is at least 1. -/
theorem C3_counterexample :
    quantity_live (per_stock_risk_calc 360000 (2/100) 1) 10000 = 0
    ∧ max 1 (pytrunc (per_stock_risk_calc 360000 (2/100) 1 / 10000)) = 1
    ∧ ¬ (1 : ℤ) ≤ 0 := by
  refine ⟨?_, ?_, by norm_num⟩
  · norm_num [quantity_live, per_stock_risk_calc, pytrunc]
  · norm_num [per_stock_risk_calc, pytrunc]

/-- C4: the claim that no sizing variant can divide by zero is contradicted by
the code: on a zero reference range (high = low) the backtest sizing
(`max(1, int(per_stock_risk / breakout_range))`) and the kite_websocket
sizing (`int(per_stock_risk / breakout_range)`) both divide by zero and raise
ZeroDivisionError (modelled as `none`); only the live sizing guards the range
and returns 1. -/
theorem C4_zero_range_eval :
    breakout_range ({ high := 100, low := 100 } : Candle) = 0
    ∧ quantity_backtest 7200 0 = none
    ∧ quantity_kws 7200 0 = none
    ∧ quantity_live 7200 0 = 1 := by
  refine ⟨?_, ?_, ?_, ?_⟩
  · norm_num [breakout_range]
  · norm_num [quantity_backtest]
  · norm_num [quantity_kws]
  · norm_num [quantity_live]

/-! ## Liquidation lemmas -/

lemma mem_filterOpenPositions (symbols : List String) (p : BrokerPosition) :
    ∀ net : List BrokerPosition,
    p ∈ filterOpenPositions symbols net ↔
      p ∈ net ∧ p.product = "MIS" ∧ p.quantity ≠ 0 ∧ p.tradingsymbol ∈ symbols := by
  intro net
  induction net with
  | nil => simp [filterOpenPositions]
  | cons q qs ih =>
    simp only [filterOpenPositions]
    split_ifs with hq
    · constructor
      · intro h
        rcases List.mem_cons.mp h with h | h
        · subst h; exact ⟨List.mem_cons_self _ _, hq⟩
        · have := ih.mp h
          exact ⟨List.mem_cons_of_mem _ this.1, this.2⟩
      · intro ⟨hmem, hprops⟩
        rcases List.mem_cons.mp hmem with h | h
        · subst h; exact List.mem_cons_self _ _
        · exact List.mem_cons_of_mem _ (ih.mpr ⟨h, hprops⟩)
    · rw [ih]
      constructor
      · intro ⟨hmem, hprops⟩
        exact ⟨List.mem_cons_of_mem _ hmem, hprops⟩
      · intro ⟨hmem, hprops⟩
        rcases List.mem_cons.mp hmem with h | h
        · subst h; exact absurd hprops hq
        · exact ⟨h, hprops⟩

lemma mem_closeOrdersFor (o : CloseOrder) :
    ∀ ps : List BrokerPosition,
    o ∈ closeOrdersFor ps ↔
      ∃ p ∈ ps, o = { tradingsymbol := p.tradingsymbol,
                      transaction_type := if p.quantity > 0 then Side.sell else Side.buy,
                      quantity := |p.quantity| } := by
  intro ps
  induction ps with
  | nil => simp [closeOrdersFor]
  | cons q qs ih =>
    simp only [closeOrdersFor, List.mem_cons, ih]
    constructor
    · rintro (h | ⟨p, hp, hop⟩)
      · exact ⟨q, Or.inl rfl, h⟩
      · exact ⟨p, Or.inr hp, hop⟩
    · rintro ⟨p, hp | hp, hop⟩
      · subst hp; exact Or.inl hop
      · exact Or.inr ⟨p, hp, hop⟩

/-- C7: corrected form.  The backtest path's closeAllPositions does reconcile
against broker truth: regardless of the local position map it issues exactly
one closing market order — opposite in direction to the reported quantity,
for its absolute value — for each broker-reported non-zero MIS position of a
tracked symbol.  The live path's close_all_positions instead closes only the
locally recorded positions (one opposite-direction order each) and so issues
no order at all when the local map is empty; its order cancellation covers
every OPEN or TRIGGER_PENDING order, while the backtest path's covers
OPEN/TRIGGER_PENDING/MODIFY_PENDING orders restricted to MIS product and
tracked-symbol-or-stop orders. -/
theorem C7_liquidation :
    (∀ (symbols : List String) (net : List BrokerPosition)
        (pt : List (String × LocalPosition)) (o : CloseOrder),
      o ∈ (closeAllPositions symbols net pt).1 ↔
        ∃ p ∈ net, p.product = "MIS" ∧ p.quantity ≠ 0 ∧ p.tradingsymbol ∈ symbols ∧
          o = { tradingsymbol := p.tradingsymbol,
                transaction_type := if p.quantity > 0 then Side.sell else Side.buy,
                quantity := |p.quantity| })
    ∧ (∀ pt : List (String × LocalPosition),
        (close_all_positions pt).1 = pt.map (fun sp =>
          { tradingsymbol := sp.1,
            transaction_type := if sp.2.direction = Side.buy then Side.sell else Side.buy,
            quantity := sp.2.quantity }))
    ∧ (∀ (symbols : List String) (orders : List BrokerOrder) (i : Nat),
        i ∈ cancelAllOrders symbols orders ↔
          ∃ o ∈ orders,
            (o.status = "OPEN" ∨ o.status = "TRIGGER_PENDING" ∨ o.status = "MODIFY_PENDING")
            ∧ o.product = "MIS"
            ∧ (o.tradingsymbol ∈ symbols ∨ o.order_type = "SL" ∨ o.order_type = "SLM")
            ∧ i = o.order_id)
    ∧ (∀ (orders : List BrokerOrder) (i : Nat),
        i ∈ cancel_all_orders orders ↔
          ∃ o ∈ orders, (o.status = "OPEN" ∨ o.status = "TRIGGER_PENDING") ∧ i = o.order_id) := by
  refine ⟨?_, ?_, ?_, ?_⟩
  · intro symbols net pt o
    simp only [closeAllPositions]
    split_ifs with hempty
    · simp only [List.not_mem_nil, false_iff]
      rintro ⟨p, hp, hprod, hqty, hsym, _⟩
      have : p ∈ filterOpenPositions symbols net :=
        (mem_filterOpenPositions symbols p net).mpr ⟨hp, hprod, hqty, hsym⟩
      rw [hempty] at this
      exact List.not_mem_nil p this
    · rw [mem_closeOrdersFor]
      constructor
      · rintro ⟨p, hp, hop⟩
        have := (mem_filterOpenPositions symbols p net).mp hp
        exact ⟨p, this.1, this.2.1, this.2.2.1, this.2.2.2, hop⟩
      · rintro ⟨p, hp, hprod, hqty, hsym, hop⟩
        exact ⟨p, (mem_filterOpenPositions symbols p net).mpr ⟨hp, hprod, hqty, hsym⟩, hop⟩
  · intro pt
    simp only [close_all_positions]
    split_ifs with h
    · subst h; rfl
    · rfl
  · intro symbols orders i
    induction orders with
    | nil => simp [cancelAllOrders]
    | cons o os ih =>
      simp only [cancelAllOrders]
      split_ifs with ho
      · simp only [List.mem_cons, ih, List.mem_cons]
        constructor
        · rintro (h | ⟨o', ho', hprops⟩)
          · exact ⟨o, Or.inl rfl, ho.1, ho.2.1, ho.2.2, h⟩
          · exact ⟨o', Or.inr ho', hprops⟩
        · rintro ⟨o', ho' | ho', hprops⟩
          · subst ho'; exact Or.inl hprops.2.2.2
          · exact Or.inr ⟨o', ho', hprops⟩
      · rw [ih]
        constructor
        · rintro ⟨o', ho', hprops⟩
          exact ⟨o', List.mem_cons_of_mem _ ho', hprops⟩
        · rintro ⟨o', ho', hprops⟩
          rcases List.mem_cons.mp ho' with h | h
          · subst h; exact absurd ⟨hprops.1, hprops.2.1, hprops.2.2.1⟩ ho
          · exact ⟨o', h, hprops⟩
  · intro orders i
    induction orders with
    | nil => simp [cancel_all_orders]
    | cons o os ih =>
      simp only [cancel_all_orders]
      split_ifs with ho
      · simp only [List.mem_cons, ih, List.mem_cons]
        constructor
        · rintro (h | ⟨o', ho', hprops⟩)
          · exact ⟨o, Or.inl rfl, ho, h⟩
          · exact ⟨o', Or.inr ho', hprops⟩
        · rintro ⟨o', ho' | ho', hprops⟩
          · subst ho'; exact Or.inl hprops.2
          · exact Or.inr ⟨o', ho', hprops⟩
      · rw [ih]
        constructor
        · rintro ⟨o', ho', hprops⟩
          exact ⟨o', List.mem_cons_of_mem _ ho', hprops⟩
        · rintro ⟨o', ho', hprops⟩
          rcases List.mem_cons.mp ho' with h | h
          · subst h; exact absurd hprops.1 ho
          · exact ⟨o', h, hprops⟩

/-- Counterexample to C7 as stated: with an empty local position map and a
broker-reported open MIS position of 5 in tracked symbol TCS, the live path's
session-end liquidation issues no closing order at all — it never queries the
broker — whereas the backtest path closes the position. -/
theorem C7_counterexample :
    (close_all_positions []).1 = []
    ∧ (closeAllPositions ["TCS"]
        [{ tradingsymbol := "TCS", product := "MIS", quantity := 5 }] []).1 =
      [{ tradingsymbol := "TCS", transaction_type := Side.sell, quantity := 5 }] := by
  constructor
  · rfl
  · rfl

/-! ## Consolidation lemmas -/

lemma le_foldl_max_high : ∀ (l : List Candle) (a : ℚ),
    a ≤ l.foldl (fun b y => max b y.high) a := by
  intro l
  induction l with
  | nil => intro a; exact le_refl a
  | cons y ys ih =>
    intro a
    exact le_trans (le_max_left a y.high) (ih (max a y.high))

lemma foldl_max_high_le (x : Candle) : ∀ (l : List Candle) (a : ℚ), x ∈ l →
    x.high ≤ l.foldl (fun b y => max b y.high) a := by
  intro l
  induction l with
  | nil => intro a h; exact absurd h (List.not_mem_nil x)
  | cons y ys ih =>
    intro a h
    rcases List.mem_cons.mp h with h | h
    · subst h
      exact le_trans (le_max_right a x.high) (le_foldl_max_high ys (max a x.high))
    · exact ih (max a y.high) h

lemma foldl_max_high_eq : ∀ (l : List Candle) (a : ℚ),
    l.foldl (fun b y => max b y.high) a = a
    ∨ ∃ x ∈ l, l.foldl (fun b y => max b y.high) a = x.high := by
  intro l
  induction l with
  | nil => intro a; exact Or.inl rfl
  | cons y ys ih =>
    intro a
    rcases ih (max a y.high) with h | ⟨x, hx, h⟩
    · rcases max_choice a y.high with hm | hm
      · exact Or.inl (by rw [List.foldl_cons, h, hm])
      · exact Or.inr ⟨y, List.mem_cons_self y ys, by rw [List.foldl_cons, h, hm]⟩
    · exact Or.inr ⟨x, List.mem_cons_of_mem y hx, by rw [List.foldl_cons, h]⟩

lemma foldl_min_low_le : ∀ (l : List Candle) (a : ℚ),
    l.foldl (fun b y => min b y.low) a ≤ a := by
  intro l
  induction l with
  | nil => intro a; exact le_refl a
  | cons y ys ih =>
    intro a
    exact le_trans (ih (min a y.low)) (min_le_left a y.low)

lemma foldl_min_low_le_mem (x : Candle) : ∀ (l : List Candle) (a : ℚ), x ∈ l →
    l.foldl (fun b y => min b y.low) a ≤ x.low := by
  intro l
  induction l with
  | nil => intro a h; exact absurd h (List.not_mem_nil x)
  | cons y ys ih =>
    intro a h
    rcases List.mem_cons.mp h with h | h
    · subst h
      exact le_trans (foldl_min_low_le ys (min a x.low)) (min_le_right a x.low)
    · exact ih (min a y.low) h

lemma foldl_min_low_eq : ∀ (l : List Candle) (a : ℚ),
    l.foldl (fun b y => min b y.low) a = a
    ∨ ∃ x ∈ l, l.foldl (fun b y => min b y.low) a = x.low := by
  intro l
  induction l with
  | nil => intro a; exact Or.inl rfl
  | cons y ys ih =>
    intro a
    rcases ih (min a y.low) with h | ⟨x, hx, h⟩
    · rcases min_choice a y.low with hm | hm
      · exact Or.inl (by rw [List.foldl_cons, h, hm])
      · exact Or.inr ⟨y, List.mem_cons_self y ys, by rw [List.foldl_cons, h, hm]⟩
    · exact Or.inr ⟨x, List.mem_cons_of_mem y hx, by rw [List.foldl_cons, h]⟩

lemma foldl_add_volume : ∀ (l : List Candle) (a : ℤ),
    l.foldl (fun b y => b + y.volume) a = a + (l.map Candle.volume).sum := by
  intro l
  induction l with
  | nil => intro a; simp
  | cons y ys ih =>
    intro a
    simp only [List.foldl_cons, List.map_cons, List.sum_cons, ih (a + y.volume)]
    ring

lemma getLast?_cons_getLastD (c : Candle) : ∀ cs : List Candle,
    (c :: cs).getLast? = some (cs.getLastD c) := by
  intro cs
  induction cs generalizing c with
  | nil => simp
  | cons d ds ih =>
    rw [List.getLast?_cons_cons, ih d, List.getLastD_cons]

/-- C8: consolidating the recorded reference buckets (in bucket-start order)
yields open = the first bucket's open, close = the last bucket's close,
high = the maximum of the highs (an upper bound that is attained), low = the
minimum of the lows (a lower bound that is attained), and volume = the sum of
the volumes; on the spec's worked example with highs [100,102,99,101,103] and
lows [98,97,100,96,99], the result has high 103, low 96, the first bucket's
open and the last bucket's close. -/
theorem C8_reference_consolidation :
    (∀ (c : Candle) (cs : List Candle),
      ∃ r, consolidateReference (c :: cs) = some r
        ∧ r.open_ = c.open_
        ∧ (∃ lastc, (c :: cs).getLast? = some lastc ∧ r.close = lastc.close)
        ∧ (∀ x ∈ c :: cs, x.high ≤ r.high) ∧ (∃ x ∈ c :: cs, r.high = x.high)
        ∧ (∀ x ∈ c :: cs, r.low ≤ x.low) ∧ (∃ x ∈ c :: cs, r.low = x.low)
        ∧ r.volume = ((c :: cs).map Candle.volume).sum)
    ∧ consolidateReference
        [{ open_ := 99, high := 100, low := 98, close := 100, volume := 10 },
         { open_ := 100, high := 102, low := 97, close := 101, volume := 20 },
         { open_ := 101, high := 99, low := 100, close := 100, volume := 30 },
         { open_ := 100, high := 101, low := 96, close := 99, volume := 40 },
         { open_ := 99, high := 103, low := 99, close := 102, volume := 50 }] =
      some { open_ := 99, high := 103, low := 96, close := 102, volume := 150 } := by
  constructor
  · intro c cs
    refine ⟨_, rfl, rfl, ⟨cs.getLastD c, getLast?_cons_getLastD c cs, rfl⟩,
      ?_, ?_, ?_, ?_, ?_⟩
    · intro x hx
      rcases List.mem_cons.mp hx with h | h
      · subst h; exact le_foldl_max_high cs x.high
      · exact foldl_max_high_le x cs c.high h
    · rcases foldl_max_high_eq cs c.high with h | ⟨x, hx, h⟩
      · exact ⟨c, List.mem_cons_self c cs, h⟩
      · exact ⟨x, List.mem_cons_of_mem c hx, h⟩
    · intro x hx
      rcases List.mem_cons.mp hx with h | h
      · subst h; exact foldl_min_low_le cs x.low
      · exact foldl_min_low_le_mem x cs c.low h
    · rcases foldl_min_low_eq cs c.low with h | ⟨x, hx, h⟩
      · exact ⟨c, List.mem_cons_self c cs, h⟩
      · exact ⟨x, List.mem_cons_of_mem c hx, h⟩
    · simp [consolidateReference, foldl_add_volume cs c.volume]
  · norm_num [consolidateReference]

/-! ## Candle-builder lemmas: completed history is append-only -/

lemma completed_complete_candle (sym : String) (s : CBState) :
    ∃ tl, (complete_candle sym s).completed_candles = s.completed_candles ++ tl := by
  unfold complete_candle
  cases h : assocFind sym s.current_candles with
  | none => exact ⟨[], by simp⟩
  | some c => exact ⟨[c], rfl⟩

lemma completed_completeSymbols : ∀ (syms : List String) (s : CBState),
    ∃ tl, (completeSymbols syms s).completed_candles = s.completed_candles ++ tl := by
  intro syms
  induction syms with
  | nil => intro s; exact ⟨[], by simp [completeSymbols]⟩
  | cons sym rest ih =>
    intro s
    obtain ⟨tl1, h1⟩ := completed_complete_candle sym s
    obtain ⟨tl2, h2⟩ := ih (complete_candle sym s)
    exact ⟨tl1 ++ tl2, by simp [completeSymbols, h2, h1, List.append_assoc]⟩

lemma completed_check_minute_change (t : Nat) (s : CBState) :
    ∃ tl, (check_minute_change t s).completed_candles = s.completed_candles ++ tl := by
  unfold check_minute_change
  cases s.current_minute with
  | none => exact ⟨[], by simp⟩
  | some m =>
    by_cases h : bucketOf t > m
    · simp only [h, if_true]
      obtain ⟨tl, htl⟩ := completed_completeSymbols (s.current_candles.map Prod.fst) s
      exact ⟨tl, htl⟩
    · simp only [h, if_false]
      exact ⟨[], by simp⟩

lemma completed_processTick (t : Nat) (s : CBState) (tk : Tick) :
    (processTick t s tk).completed_candles = s.completed_candles := by
  unfold processTick initialize_candle update_candle
  split_ifs with h1 h2
  · rfl
  · cases assocFind tk.symbol s.current_candles <;> rfl
  · rfl

lemma completed_foldTicks (t : Nat) : ∀ (ticks : List Tick) (s : CBState),
    (ticks.foldl (processTick t) s).completed_candles = s.completed_candles := by
  intro ticks
  induction ticks with
  | nil => intro s; rfl
  | cons tk rest ih =>
    intro s
    simp only [List.foldl_cons, ih (processTick t s tk), completed_processTick]

lemma completed_on_ticks (t : Nat) (ticks : List Tick) (s : CBState) :
    ∃ tl, (on_ticks t ticks s).completed_candles = s.completed_candles ++ tl := by
  unfold on_ticks
  obtain ⟨tl, htl⟩ := completed_check_minute_change t s
  exact ⟨tl, by rw [completed_foldTicks, htl]⟩

/-- C10: a tick arriving after its bucket has been completed is never applied
to that bucket: processing any tick batch — and any stream of batches — only
ever appends to the completed-candle history, so every already-completed
candle (its open, high, low, close, volume and tick-count) is left exactly in
place, and a completed candle is never re-opened or modified. -/
theorem C10_completed_immutable :
    (∀ (t : Nat) (ticks : List Tick) (s : CBState),
      ∃ tl, (on_ticks t ticks s).completed_candles = s.completed_candles ++ tl)
    ∧ (∀ (batches : List (Nat × List Tick)) (s : CBState),
      ∃ tl, (processBatches batches s).completed_candles = s.completed_candles ++ tl) := by
  constructor
  · exact completed_on_ticks
  · intro batches
    induction batches with
    | nil => intro s; exact ⟨[], by simp [processBatches]⟩
    | cons b rest ih =>
      intro s
      obtain ⟨tl1, h1⟩ := completed_on_ticks b.1 b.2 s
      obtain ⟨tl2, h2⟩ := ih (on_ticks b.1 b.2 s)
      exact ⟨tl1 ++ tl2, by simp [processBatches, h2, h1, List.append_assoc]⟩

/-! ## Association-list lemmas for the open-candle dict -/

lemma assocFind_assocSet_self (k : String) (v : Candle) :
    ∀ l, assocFind k (assocSet k v l) = some v := by
  intro l
  induction l with
  | nil => simp [assocSet, assocFind]
  | cons e rest ih =>
    obtain ⟨k', v'⟩ := e
    by_cases h : k' = k
    · simp [assocSet, assocFind, h]
    · simp [assocSet, assocFind, h, ih]

lemma assocFind_assocSet_ne (k k' : String) (v : Candle) (h : k' ≠ k) :
    ∀ l, assocFind k (assocSet k' v l) = assocFind k l := by
  have hks : k ≠ k' := Ne.symm h
  intro l
  induction l with
  | nil => simp [assocSet, assocFind, h]
  | cons e rest ih =>
    obtain ⟨k'', v''⟩ := e
    by_cases h2 : k'' = k'
    · subst h2
      simp [assocSet, assocFind, h]
    · by_cases h3 : k'' = k
      · subst h3
        simp [assocSet, assocFind, h2, hks]
      · simp [assocSet, assocFind, h2, h3, ih]

lemma assocSet_of_find_none (k : String) (v : Candle) :
    ∀ l, assocFind k l = none → assocSet k v l = l ++ [(k, v)] := by
  intro l
  induction l with
  | nil => intro _; rfl
  | cons e rest ih =>
    obtain ⟨k', v'⟩ := e
    intro h
    by_cases h2 : k' = k
    · simp [assocFind, h2] at h
    · simp only [assocFind, if_neg h2] at h
      simp [assocSet, h2, ih h]

lemma keys_assocSet_of_find_some (k : String) (v : Candle) :
    ∀ l c, assocFind k l = some c →
      (assocSet k v l).map Prod.fst = l.map Prod.fst := by
  intro l
  induction l with
  | nil => intro c h; simp [assocFind] at h
  | cons e rest ih =>
    obtain ⟨k', v'⟩ := e
    intro c h
    by_cases h2 : k' = k
    · subst h2
      simp [assocSet]
    · simp only [assocFind, if_neg h2] at h
      simp [assocSet, h2, ih c h]

lemma mem_assocSet (k : String) (v : Candle) :
    ∀ l x, x ∈ assocSet k v l → x = (k, v) ∨ x ∈ l := by
  intro l
  induction l with
  | nil => intro x hx; simp [assocSet] at hx; exact Or.inl hx
  | cons e rest ih =>
    obtain ⟨k', v'⟩ := e
    intro x hx
    by_cases h2 : k' = k
    · simp only [assocSet, if_pos h2] at hx
      rcases List.mem_cons.mp hx with h | h
      · exact Or.inl h
      · exact Or.inr (List.mem_cons_of_mem _ h)
    · simp only [assocSet, if_neg h2] at hx
      rcases List.mem_cons.mp hx with h | h
      · exact Or.inr (h ▸ List.mem_cons_self _ _)
      · rcases ih x h with h3 | h3
        · exact Or.inl h3
        · exact Or.inr (List.mem_cons_of_mem _ h3)

lemma assocFind_mem (k : String) :
    ∀ l c, assocFind k l = some c → (k, c) ∈ l := by
  intro l
  induction l with
  | nil => intro c h; simp [assocFind] at h
  | cons e rest ih =>
    obtain ⟨k', v'⟩ := e
    intro c h
    by_cases h2 : k' = k
    · subst h2
      simp only [assocFind, if_pos] at h
      injection h with h
      rw [← h]
      exact List.mem_cons_self _ _
    · simp only [assocFind, if_neg h2] at h
      exact List.mem_cons_of_mem _ (ih c h)

lemma assocFind_none_not_mem (k : String) :
    ∀ l, assocFind k l = none → k ∉ l.map Prod.fst := by
  intro l
  induction l with
  | nil => intro _ h; simp at h
  | cons e rest ih =>
    obtain ⟨k', v'⟩ := e
    intro h
    by_cases h2 : k' = k
    · simp [assocFind, h2] at h
    · simp only [assocFind, if_neg h2] at h
      simp only [List.map_cons, List.mem_cons]
      rintro (h3 | h3)
      · exact h2 h3.symm
      · exact ih h h3

lemma assocFind_of_mem_nodup (k : String) (c : Candle) :
    ∀ l, (l.map Prod.fst).Nodup → (k, c) ∈ l → assocFind k l = some c := by
  intro l
  induction l with
  | nil => intro _ h; simp at h
  | cons e rest ih =>
    obtain ⟨k', v'⟩ := e
    intro hnd hmem
    rcases List.mem_cons.mp hmem with h | h
    · obtain ⟨h1, h2⟩ := Prod.mk.injEq .. ▸ h
      injection h with h1 h2
      subst h1; subst h2
      simp [assocFind]
    · have hk : k' ≠ k := by
        intro hkk
        subst hkk
        have : k' ∈ rest.map Prod.fst :=
          List.mem_map.mpr ⟨(k', c), h, rfl⟩
        exact (List.nodup_cons.mp (by simpa using hnd)).1 this
      simp only [assocFind, if_neg hk]
      exact ih (List.nodup_cons.mp (by simpa using hnd)).2 h

/-! ## Bucket-invariant lemmas for the candle builder -/

lemma CBInv_congr {tracked : List String} {m : Nat} {f g : String → Nat}
    {s : CBState} (h : CBInv tracked m f s) (hfg : ∀ sym, f sym = g sym) :
    CBInv tracked m g s := by
  obtain ⟨h1, h2, h3, h4, h5, h6⟩ := h
  refine ⟨h1, h2, h3, h4, h5, fun sym hs => ⟨?_, ?_⟩⟩
  · intro hn
    rw [← hfg sym]
    exact (h6 sym hs).1 hn
  · intro c hc
    rw [← hfg sym]
    exact (h6 sym hs).2 c hc

lemma CBInv_processTick {tracked : List String} {m : Nat} {f : String → Nat}
    (t : Nat) (tk : Tick) {s : CBState}
    (hb : bucketOf t = m) (h : CBInv tracked m f s) :
    CBInv tracked m (fun sym => f sym + if tk.symbol = sym then 1 else 0)
      (processTick t s tk) := by
  obtain ⟨htr, hmin, hcomp, hnd, hent, hcount⟩ := h
  unfold processTick
  by_cases h1 : tk.symbol ∈ s.tracked
  · rw [if_pos h1]
    by_cases h2 : assocFind tk.symbol s.current_candles = none
    · rw [if_pos h2]
      have hcur : (initialize_candle tk.symbol tk.last_price t s).current_candles
          = assocSet tk.symbol
            (⟨tk.symbol, bucketOf t, tk.last_price, tk.last_price, tk.last_price,
              tk.last_price, 0, 0, t, t⟩ : Candle) s.current_candles := rfl
      refine ⟨htr, hmin, hcomp, ?_, ?_, ?_⟩
      · rw [hcur, assocSet_of_find_none _ _ _ h2]
        simp only [List.map_append, List.map_cons, List.map_nil]
        rw [List.nodup_append]
        exact ⟨hnd, List.nodup_singleton _,
          by simpa using fun h3 => assocFind_none_not_mem tk.symbol _ h2 h3⟩
      · intro e he
        rw [hcur] at he
        rcases mem_assocSet _ _ _ _ he with h3 | h3
        · subst h3
          exact ⟨htr ▸ h1, rfl, hb⟩
        · exact hent e h3
      · intro sym hs
        by_cases h4 : tk.symbol = sym
        · subst h4
          refine ⟨?_, ?_⟩
          · intro hn
            rw [hcur, assocFind_assocSet_self] at hn
            exact absurd hn (by simp)
          · intro c hc
            rw [hcur, assocFind_assocSet_self] at hc
            injection hc with hc
            rw [← hc]
            simp [(hcount tk.symbol hs).1 h2]
        · refine ⟨?_, ?_⟩
          · intro hn
            rw [hcur, assocFind_assocSet_ne sym tk.symbol _ h4] at hn
            simp [h4, (hcount sym hs).1 hn]
          · intro c hc
            rw [hcur, assocFind_assocSet_ne sym tk.symbol _ h4] at hc
            simp [h4, (hcount sym hs).2 c hc]
    · rw [if_neg h2]
      obtain ⟨c0, hc0⟩ := Option.ne_none_iff_exists'.mp h2
      have hmem0 : (tk.symbol, c0) ∈ s.current_candles :=
        assocFind_mem tk.symbol s.current_candles c0 hc0
      have hent0 := hent (tk.symbol, c0) hmem0
      have hupd : update_candle tk.symbol tk.last_price tk.volume_traded t s
          = { s with current_candles := assocSet tk.symbol
                        (⟨c0.symbol, c0.timestamp, c0.open_,
                          (if tk.last_price > c0.high then tk.last_price else c0.high),
                          (if tk.last_price < c0.low then tk.last_price else c0.low),
                          tk.last_price, c0.volume + tk.volume_traded, c0.tick_count + 1,
                          c0.first_tick_time, t⟩ : Candle) s.current_candles } := by
        unfold update_candle
        rw [hc0]
      rw [hupd]
      refine ⟨htr, hmin, hcomp, ?_, ?_, ?_⟩
      · dsimp only
        rw [keys_assocSet_of_find_some tk.symbol _ s.current_candles c0 hc0]
        exact hnd
      · intro e he
        dsimp only at he
        rcases mem_assocSet _ _ _ _ he with h3 | h3
        · subst h3
          exact ⟨htr ▸ h1, hent0.2.1, hent0.2.2⟩
        · exact hent e h3
      · intro sym hs
        by_cases h4 : tk.symbol = sym
        · subst h4
          refine ⟨?_, ?_⟩
          · intro hn
            dsimp only at hn
            rw [assocFind_assocSet_self] at hn
            exact absurd hn (by simp)
          · intro c hc
            dsimp only at hc
            rw [assocFind_assocSet_self] at hc
            injection hc with hc
            rw [← hc]
            have h5 := (hcount tk.symbol hs).2 c0 hc0
            simp
            omega
        · refine ⟨?_, ?_⟩
          · intro hn
            dsimp only at hn
            rw [assocFind_assocSet_ne sym tk.symbol _ h4] at hn
            simp [h4, (hcount sym hs).1 hn]
          · intro c hc
            dsimp only at hc
            rw [assocFind_assocSet_ne sym tk.symbol _ h4] at hc
            simp [h4, (hcount sym hs).2 c hc]
  · rw [if_neg h1]
    refine ⟨htr, hmin, hcomp, hnd, hent, fun sym hs => ⟨?_, ?_⟩⟩
    · intro hn
      have h4 : tk.symbol ≠ sym := by
        intro hh
        rw [htr] at h1
        exact h1 (by rw [hh]; exact hs)
      simp [h4, (hcount sym hs).1 hn]
    · intro c hc
      have h4 : tk.symbol ≠ sym := by
        intro hh
        rw [htr] at h1
        exact h1 (by rw [hh]; exact hs)
      simp [h4, (hcount sym hs).2 c hc]

lemma CBInv_foldTicks {tracked : List String} {m : Nat} (t : Nat)
    (hb : bucketOf t = m) :
    ∀ (ticks : List Tick) (f : String → Nat) (s : CBState), CBInv tracked m f s →
    CBInv tracked m (fun sym => f sym + countTicksFor sym ticks)
      (ticks.foldl (processTick t) s) := by
  intro ticks
  induction ticks with
  | nil =>
    intro f s h
    exact CBInv_congr h (fun sym => by simp [countTicksFor])
  | cons tk rest ih =>
    intro f s h
    simp only [List.foldl_cons]
    have h1 := CBInv_processTick t tk hb h
    have h2 := ih _ _ h1
    exact CBInv_congr h2 (fun sym => by simp [countTicksFor, Nat.add_assoc])

lemma CBInv_on_ticks {tracked : List String} {m : Nat} {f : String → Nat}
    (t : Nat) (ticks : List Tick) {s : CBState}
    (hb : bucketOf t = m) (h : CBInv tracked m f s) :
    CBInv tracked m (fun sym => f sym + countTicksFor sym ticks)
      (on_ticks t ticks s) := by
  unfold on_ticks
  have hstep : check_minute_change t s = s := by
    unfold check_minute_change
    rw [h.2.1, hb]
    simp
  rw [hstep]
  exact CBInv_foldTicks t hb ticks f s h

lemma CBInv_processBatches {tracked : List String} {m : Nat} :
    ∀ (batches : List (Nat × List Tick)) (f : String → Nat) (s : CBState),
    (∀ b ∈ batches, bucketOf b.1 = m) → CBInv tracked m f s →
    CBInv tracked m (fun sym => f sym + countTicksForBatches sym batches)
      (processBatches batches s) := by
  intro batches
  induction batches with
  | nil =>
    intro f s _ h
    exact CBInv_congr h (fun sym => by simp [countTicksForBatches])
  | cons b rest ih =>
    intro f s hb h
    simp only [processBatches]
    have h1 := CBInv_on_ticks b.1 b.2 (hb b (List.mem_cons_self b rest)) h
    have h2 := ih _ _ (fun x hx => hb x (List.mem_cons_of_mem b hx)) h1
    exact CBInv_congr h2 (fun sym => by simp [countTicksForBatches, Nat.add_assoc])

lemma CBInv_init (tracked : List String) (m : Nat) :
    CBInv tracked m (fun _ => 0) (initCBState tracked m) := by
  refine ⟨rfl, rfl, rfl, by simp [initCBState], ?_, ?_⟩
  · intro e he
    simp [initCBState] at he
  · intro sym _
    refine ⟨fun _ => rfl, fun c hc => ?_⟩
    simp [initCBState, assocFind] at hc

lemma completeSymbols_spec : ∀ (l : List (String × Candle)) (s : CBState),
    s.current_candles = l →
    completeSymbols (l.map Prod.fst) s =
      { s with current_candles := [],
               completed_candles := s.completed_candles ++ l.map Prod.snd } := by
  intro l
  induction l with
  | nil =>
    intro s h
    cases s
    simp_all [completeSymbols]
  | cons e rest ih =>
    intro s h
    obtain ⟨k, c⟩ := e
    simp only [List.map_cons, completeSymbols]
    have hc : complete_candle k s =
        { s with current_candles := rest,
                 completed_candles := s.completed_candles ++ [c] } := by
      unfold complete_candle
      rw [h]
      simp [assocFind, assocErase]
    rw [hc]
    have h9 := ih { s with current_candles := rest, completed_candles := s.completed_candles ++ [c] } rfl
    rw [h9]
    simp

lemma on_ticks_flush (t' : Nat) (s : CBState) (m : Nat)
    (hmin : s.current_minute = some m) (hgt : bucketOf t' > m) :
    on_ticks t' [] s =
      { s with current_candles := [],
               completed_candles := s.completed_candles ++ s.current_candles.map Prod.snd,
               current_minute := some (bucketOf t') } := by
  unfold on_ticks check_minute_change
  rw [hmin]
  simp only [List.foldl_nil]
  rw [if_pos hgt, completeSymbols_spec s.current_candles s rfl]

lemma processBatches_append : ∀ (xs ys : List (Nat × List Tick)) (s : CBState),
    processBatches (xs ++ ys) s = processBatches ys (processBatches xs s) := by
  intro xs
  induction xs with
  | nil => intro ys s; rfl
  | cons x rest ih =>
    intro ys s
    simp only [List.cons_append, processBatches, List.append_eq, ih]

/-- C9: corrected form.  The tick that opens a candle is not counted:
starting a session bucket m, feeding any batches of ticks whose arrival times
all fall in bucket m, and then a later (flushing) batch, every completed
candle carries tick_count equal to the number of ticks ingested for its
symbol in that bucket **minus one** (tick_count + 1 = ticks ingested), and
sits at bucket m. -/
theorem C9_tick_count (tracked : List String) (m : Nat)
    (batches : List (Nat × List Tick)) (t' : Nat)
    (hb : ∀ b ∈ batches, bucketOf b.1 = m) (ht : bucketOf t' > m) :
    ∀ c ∈ (processBatches (batches ++ [(t', [])])
        (initCBState tracked m)).completed_candles,
      c.tick_count + 1 = countTicksForBatches c.symbol batches ∧ c.timestamp = m := by
  have hinv := CBInv_processBatches batches _ _ hb (CBInv_init tracked m)
  obtain ⟨htr, hmin, hcomp, hnd, hent, hcount⟩ := hinv
  rw [processBatches_append]
  simp only [processBatches]
  rw [on_ticks_flush t' _ m hmin ht]
  intro c hc
  simp only [hcomp, List.nil_append] at hc
  rcases List.mem_map.mp hc with ⟨e, he, hce⟩
  have h5 := hent e he
  have hfind : assocFind e.1 (processBatches batches
      (initCBState tracked m)).current_candles = some e.2 :=
    assocFind_of_mem_nodup e.1 e.2 _ hnd (by rw [Prod.mk.eta]; exact he)
  have h6 := (hcount e.1 h5.1).2 e.2 hfind
  rw [← hce]
  refine ⟨?_, h5.2.2⟩
  rw [h5.2.1, h6]
  simp

/-- Witness for C9: one bucket-0 batch with two TCS ticks then a flushing
batch; the completed candle has tick_count 1 and 1 + 1 = 2 ingested ticks. -/
theorem C9_tick_count_witness :
    (⟨"TCS", 0, 100, 101, 100, 101, 7, 1, 0, 0⟩ : Candle).tick_count + 1 =
      countTicksForBatches "TCS"
        [(0, [{ symbol := "TCS", last_price := 100, volume_traded := 5 },
              { symbol := "TCS", last_price := 101, volume_traded := 7 }])]
    ∧ (⟨"TCS", 0, 100, 101, 100, 101, 7, 1, 0, 0⟩ : Candle).timestamp = 0 :=
  C9_tick_count ["TCS"] 0
    [(0, [{ symbol := "TCS", last_price := 100, volume_traded := 5 },
          { symbol := "TCS", last_price := 101, volume_traded := 7 }])] 60
    (by decide) (by decide)
    (⟨"TCS", 0, 100, 101, 100, 101, 7, 1, 0, 0⟩ : Candle) (by decide)

/-- Counterexample to C9 as stated: a bucket that ingests exactly one tick
(the tick that opens the candle) completes with tick_count 0, not 1 — the
opening tick is not counted. -/
theorem C9_counterexample :
    (processBatches
        [(0, [{ symbol := "TCS", last_price := 100, volume_traded := 5 }]), (60, [])]
        (initCBState ["TCS"] 0)).completed_candles =
      [⟨"TCS", 0, 100, 100, 100, 100, 0, 0, 0, 0⟩]
    ∧ countTicksFor "TCS" [{ symbol := "TCS", last_price := 100, volume_traded := 5 }] = 1
    ∧ (0 : Nat) ≠ 1 := by
  refine ⟨by decide, by decide, by decide⟩

/-- Witness for C7: the live liquidation applied to a singleton local map. -/
theorem C7_liquidation_witness :
    (close_all_positions [("INFY",
      { direction := Side.buy, quantity := 10, stop_loss_order_id := none })]).1 =
      [{ tradingsymbol := "INFY", transaction_type := Side.sell, quantity := 10 }] :=
  (C7_liquidation.2.1 _).trans (by decide)

/-- Witness for C8: the consolidation evaluated on the spec's worked example. -/
theorem C8_reference_consolidation_witness :
    consolidateReference
        [{ open_ := 99, high := 100, low := 98, close := 100, volume := 10 },
         { open_ := 100, high := 102, low := 97, close := 101, volume := 20 },
         { open_ := 101, high := 99, low := 100, close := 100, volume := 30 },
         { open_ := 100, high := 101, low := 96, close := 99, volume := 40 },
         { open_ := 99, high := 103, low := 99, close := 102, volume := 50 }] =
      some { open_ := 99, high := 103, low := 96, close := 102, volume := 150 } :=
  C8_reference_consolidation.2
